import Mathlib

/-!
# KVideo — transparent Traditional→Simplified URL interception layer

Shallow embedding of the client-side script installed by `src/app/layout.tsx`
(the `initS2T` IIFE): the ECMAScript `encodeURI`/`decodeURI` pair, the
`convertUrl` transform, the four monkey-patched dispatch points
(`window.fetch`, `XMLHttpRequest.prototype.open`, `history.pushState`,
`history.replaceState`) and the 100 ms dependency-polling gate, together with
proofs of the specified properties.

The external `ChineseS2T.t2s` library is kept abstract as a parameter
`t2s : String → Option String` (`none` models the library throwing).
JavaScript exceptions are modelled by `Option`/`Except`; JavaScript values
reaching the wrappers are modelled by `JSVal`.
-/

namespace KVideo

/-! ## ECMAScript `encodeURI` / `decodeURI`

Modelled from the ECMAScript specification of the two intrinsics used by
`convertUrl` (the source calls the native `decodeURI`/`encodeURI`):
`uriReserved = ; / ? : @ & = + $ ,`, `uriUnescaped = ALPHA DIGIT - _ . ! ~ * ' ( )`.
`encodeURI` leaves `uriReserved ∪ uriUnescaped ∪ #` intact and
percent-escapes the UTF-8 bytes of every other character (uppercase hex);
`decodeURI` decodes every `%`-escape except those denoting a character of
`uriReserved ∪ #`, which are preserved literally, and throws (`none`) on
malformed escapes or invalid UTF-8. Lean `Char` is a Unicode scalar value, so
the lone-surrogate throw of the native `encodeURI` cannot arise here and
`encodeURI` is total. -/

def isUriAlnum (c : Char) : Bool :=
  (decide ('A' ≤ c) && decide (c ≤ 'Z')) ||
  (decide ('a' ≤ c) && decide (c ≤ 'z')) ||
  (decide ('0' ≤ c) && decide (c ≤ '9'))

def uriMarkChar (c : Char) : Bool :=
  ['-', '_', '.', '!', '~', '*', Char.ofNat 39, '(', ')'].contains c

def uriReservedChar (c : Char) : Bool :=
  [';', '/', '?', ':', '@', '&', '=', '+', '$', ','].contains c

def uriUnescapedChar (c : Char) : Bool :=
  isUriAlnum c || uriMarkChar c

/-- Characters `encodeURI` leaves unescaped: `uriReserved ∪ uriUnescaped ∪ {#}`. -/
def encodeKeep (c : Char) : Bool :=
  uriReservedChar c || uriUnescapedChar c || c == '#'

/-- Characters whose escape sequences `decodeURI` preserves: `uriReserved ∪ {#}`. -/
def decodePreserve (c : Char) : Bool :=
  uriReservedChar c || c == '#'

/-- UTF-8 bytes of a Unicode scalar value. -/
def utf8Bytes (c : Char) : List Nat :=
  let v := c.toNat
  if v < 128 then [v]
  else if v < 2048 then [192 + v / 64, 128 + v % 64]
  else if v < 65536 then [224 + v / 64 / 64, 128 + v / 64 % 64, 128 + v % 64]
  else [240 + v / 64 / 64 / 64, 128 + v / 64 / 64 % 64, 128 + v / 64 % 64, 128 + v % 64]

/-- Uppercase hexadecimal digit, `n < 16`. -/
def hexDigitUpper (n : Nat) : Char :=
  if n < 10 then Char.ofNat (48 + n) else Char.ofNat (55 + n)

/-- `%XX` escape of one byte. -/
def byteHex (b : Nat) : List Char :=
  ['%', hexDigitUpper (b / 16), hexDigitUpper (b % 16)]

def percentBytes : List Nat → List Char
  | [] => []
  | b :: bs => byteHex b ++ percentBytes bs

def encodeURIChar (c : Char) : List Char :=
  if encodeKeep c then [c] else percentBytes (utf8Bytes c)

def encList : List Char → List Char
  | [] => []
  | c :: l => encodeURIChar c ++ encList l

/-- ECMAScript `encodeURI` (total: Lean strings carry no lone surrogates). -/
def encodeURI (s : String) : String :=
  String.mk (encList s.data)

/-- Value of one hexadecimal digit character (either case). -/
def hexVal (c : Char) : Option Nat :=
  if '0' ≤ c ∧ c ≤ '9' then some (c.toNat - 48)
  else if 'A' ≤ c ∧ c ≤ 'F' then some (c.toNat - 55)
  else if 'a' ≤ c ∧ c ≤ 'f' then some (c.toNat - 87)
  else none

/-- Read the two hex digits that follow a `%`; returns the byte, the two
original digit characters (their case is needed when the escape is preserved)
and the remaining input. -/
def readHexByte : List Char → Option (Nat × Char × Char × List Char)
  | d1 :: d2 :: rest =>
    match hexVal d1, hexVal d2 with
    | some h1, some h2 => some (16 * h1 + h2, d1, d2, rest)
    | _, _ => none
  | _ => none

/-- Length, offset and minimal code point of a multi-byte UTF-8 sequence,
from its lead byte (`none` = invalid lead, a `URIError` in the source). -/
def seqInfo (b : Nat) : Option (Nat × Nat × Nat) :=
  if b < 192 then none
  else if b < 224 then some (1, 192, 128)
  else if b < 240 then some (2, 224, 2048)
  else if b < 248 then some (3, 240, 65536)
  else none

/-- Read `n` percent-escaped UTF-8 continuation bytes (each in `[0x80, 0xC0)`). -/
def readContBytes : Nat → List Char → Option (List Nat × List Char)
  | 0, l => some ([], l)
  | n + 1, c :: tl =>
    if c = '%' then
      match readHexByte tl with
      | none => none
      | some (b, _, _, rest) =>
        if 128 ≤ b ∧ b < 192 then
          match readContBytes n rest with
          | none => none
          | some (bs, rest2) => some (b :: bs, rest2)
        else none
    else none
  | _ + 1, [] => none

/-- One pass of the ECMAScript `Decode` abstract operation with preserve set
`uriReserved ∪ {#}` (the `decodeURI` instance). `fuel` only bounds the
recursion; the initial call supplies the input length, which suffices because
every step consumes at least one character. `none` models `URIError`. -/
def decodeLoop : Nat → List Char → Option (List Char)
  | _, [] => some []
  | 0, _ :: _ => none
  | fuel + 1, c :: tl =>
    if c = '%' then
      match readHexByte tl with
      | none => none
      | some (b, d1, d2, rest) =>
        if b < 128 then
          match decodeLoop fuel rest with
          | none => none
          | some tail =>
            some (if decodePreserve (Char.ofNat b) then '%' :: d1 :: d2 :: tail
                  else Char.ofNat b :: tail)
        else
          match seqInfo b with
          | none => none
          | some info =>
            match readContBytes info.1 rest with
            | none => none
            | some (conts, rest2) =>
              let v := conts.foldl (fun a bb => a * 64 + (bb - 128)) (b - info.2.1)
              if info.2.2 ≤ v ∧ v ≤ 1114111 ∧ (v < 55296 ∨ 57343 < v) then
                match decodeLoop fuel rest2 with
                | none => none
                | some tail => some (Char.ofNat v :: tail)
              else none
    else
      match decodeLoop fuel tl with
      | none => none
      | some tail => some (c :: tail)

/-- ECMAScript `decodeURI`; `none` models a thrown `URIError`. -/
def decodeURI (s : String) : Option String :=
  (decodeLoop s.data.length s.data).map String.mk

/-! ## JavaScript values and `convertUrl` (src/app/layout.tsx, lines 167–176) -/

/-- JavaScript values as they reach the wrappers: strings, `undefined`,
`null`, booleans, numbers, and opaque non-string objects (a `Request`, a
history state object, …) identified by a tag. -/
inductive JSVal where
  | undef
  | null
  | boolean (b : Bool)
  | num (n : Int)
  | str (s : String)
  | obj (id : Nat)
  deriving DecidableEq

/-- `typeof v === 'string'`. -/
def JSVal.isString : JSVal → Bool
  | .str _ => true
  | _ => false

/-- JavaScript truthiness, as used by the `!url` guard. -/
def jsTruthy : JSVal → Bool
  | .undef => false
  | .null => false
  | .boolean b => b
  | .num n => !(n == 0)
  | .str s => !(s == "")
  | .obj _ => true

/-- `convertUrl` (lines 167–176): guard `!url || typeof url !== 'string'`,
then `try { return encodeURI(ChineseS2T.t2s(decodeURI(url))) } catch { return url }`.
`t2s` abstracts `ChineseS2T.t2s`; `none` models it throwing. -/
def convertUrl (t2s : String → Option String) (url : JSVal) : JSVal :=
  if !(jsTruthy url) || !(url.isString) then url
  else
    match url with
    | .str s =>
      match decodeURI s with
      | none => url
      | some decoded =>
        match t2s decoded with
        | none => url
        | some simplified => .str (encodeURI simplified)
    | _ => url

/-! ## The four installed wrappers (lines 179–211)

Each wrapper is embedded as the transformation it applies to the incoming
argument list before delegating, plus the delegation itself.  An original
implementation is a function of the `this` receiver, the argument list and an
explicit state (used to instrument call counting); it returns the new state
and its result, `Except` modelling a thrown exception. -/

/-- `args[0] = convertUrl(args[0])` when `typeof args[0] === 'string'`
(the `window.fetch` wrapper body, lines 180–184; `...args` keeps arity). -/
def fetchArgs (t2s : String → Option String) : List JSVal → List JSVal
  | [] => []
  | a :: rest => (if a.isString then convertUrl t2s a else a) :: rest

/-- `XMLHttpRequest.prototype.open` wrapper (lines 189–194): signature
`(method, url, ...rest)`; delegates `originalOpen.call(this, method, url, ...rest)`,
so a call of arity below two reaches the original padded with `undefined`. -/
def openArgs (t2s : String → Option String) (args : List JSVal) : List JSVal :=
  let url := args.getD 1 .undef
  args.getD 0 .undef :: (if url.isString then convertUrl t2s url else url) :: args.drop 2

/-- `history.pushState` wrapper (lines 198–203): signature `(state, unused, url)`
with no rest parameter; the original always receives exactly three arguments. -/
def pushStateArgs (t2s : String → Option String) (args : List JSVal) : List JSVal :=
  let url := args.getD 2 .undef
  [args.getD 0 .undef, args.getD 1 .undef, if url.isString then convertUrl t2s url else url]

/-- `history.replaceState` wrapper (lines 206–211), textually identical to the
`pushState` one. -/
def replaceStateArgs (t2s : String → Option String) (args : List JSVal) : List JSVal :=
  let url := args.getD 2 .undef
  [args.getD 0 .undef, args.getD 1 .undef, if url.isString then convertUrl t2s url else url]

/-- A captured original implementation: `this` receiver, argument list,
instrumentation state in, state out and result (`Except` = thrown). -/
def Original (σ : Type) : Type :=
  JSVal → List JSVal → σ → σ × Except String JSVal

/-- `window.fetch = async function(...args) { …; return originalFetch.apply(this, args) }`. -/
def fetchWrapper (t2s : String → Option String) (originalFetch : Original σ) : Original σ :=
  fun thisArg args st => originalFetch thisArg (fetchArgs t2s args) st

/-- `XMLHttpRequest.prototype.open = function(method, url, ...rest) { …;
return originalOpen.call(this, method, url, ...rest) }`. -/
def openWrapper (t2s : String → Option String) (originalOpen : Original σ) : Original σ :=
  fun thisArg args st => originalOpen thisArg (openArgs t2s args) st

/-- `history.pushState = function(state, unused, url) { …;
return originalPushState.call(this, state, unused, url) }`. -/
def pushStateWrapper (t2s : String → Option String) (originalPushState : Original σ) : Original σ :=
  fun thisArg args st => originalPushState thisArg (pushStateArgs t2s args) st

/-- `history.replaceState = function(state, unused, url) { …;
return originalReplaceState.call(this, state, unused, url) }`. -/
def replaceStateWrapper (t2s : String → Option String) (originalReplaceState : Original σ) : Original σ :=
  fun thisArg args st => originalReplaceState thisArg (replaceStateArgs t2s args) st

/-! ## Installer and dependency gate (lines 160–216) -/

/-- The four global dispatch points. -/
structure Globals (σ : Type) where
  fetch : Original σ
  xhrOpen : Original σ
  pushState : Original σ
  replaceState : Original σ

/-- The interception installer: the body of `initS2T` after the
`typeof ChineseS2T === 'undefined'` check succeeds — captures each current
global once and rebinds it to the corresponding wrapper, synchronously. -/
def installS2T (t2s : String → Option String) (g : Globals σ) : Globals σ :=
  { fetch := fetchWrapper t2s g.fetch
    xhrOpen := openWrapper t2s g.xhrOpen
    pushState := pushStateWrapper t2s g.pushState
    replaceState := replaceStateWrapper t2s g.replaceState }

/-- Dependency-gate state: current globals, whether the installer has run,
and the time of the next scheduled `initS2T` poll (`none` = polling stopped). -/
structure GateState (σ : Type) where
  globals : Globals σ
  installed : Bool
  nextPoll : Option Nat

/-- One scheduled run of `initS2T` (lines 160–164 and 216): at the scheduled
time `t`, if `typeof ChineseS2T === 'undefined'` (`lib t = false`) it
reschedules itself via `setTimeout(initS2T, 100)`; otherwise it installs all
four wrappers in the same synchronous pass and schedules no further poll. -/
def gateStep (lib : Nat → Bool) (t2s : String → Option String) (st : GateState σ) :
    GateState σ :=
  match st.nextPoll with
  | none => st
  | some t =>
    if lib t then
      { globals := installS2T t2s st.globals, installed := true, nextPoll := none }
    else
      { st with nextPoll := some (t + 100) }

/-- Page load: pristine globals, nothing installed, `initS2T()` invoked at
time 0 (line 216). -/
def gateInit (g : Globals σ) : GateState σ :=
  { globals := g, installed := false, nextPoll := some 0 }

/-- The gate after `k` scheduled runs of `initS2T`. -/
def gateRun (lib : Nat → Bool) (t2s : String → Option String) (g : Globals σ) :
    Nat → GateState σ
  | 0 => gateInit g
  | k + 1 => gateStep lib t2s (gateRun lib t2s g k)

/-! ## Spec-side definition and concrete instruments -/

/-- Written from the spec's algorithm for the URL Transform Function (§4.2):
guard — if the input is not a string or is empty, return it unchanged;
otherwise percent-decode, transform, percent-re-encode; on any exception
during those steps return the original input. For comparison with
`convertUrl`. -/
def convertUrlSpec (t2s : String → Option String) (url : JSVal) : JSVal :=
  match url with
  | .str s =>
    if s = "" then .str s
    else
      match (decodeURI s).bind t2s with
      | some simplified => .str (encodeURI simplified)
      | none => .str s
  | v => v

/-- Identity transform (a library run on text with nothing to convert). -/
def t2sId : String → Option String := fun s => some s

/-- Sample transform realising the spec's scenario mapping 繁體字 → 繁体字
and 頁面 → 页面. -/
def t2sSample : String → Option String := fun s =>
  if s = "/search?q=繁體字" then some "/search?q=繁体字"
  else if s = "/頁面" then some "/页面"
  else some s

/-- Instrumented original: counts its invocations and records the argument
list it received; never throws. -/
def countingOriginal : Original (Nat × Option (List JSVal)) :=
  fun _ args st => ((st.1 + 1, some args), .ok .undef)

/-- Pristine globals, all four dispatch points instrumented. -/
def countingGlobals : Globals (Nat × Option (List JSVal)) :=
  { fetch := countingOriginal
    xhrOpen := countingOriginal
    pushState := countingOriginal
    replaceState := countingOriginal }

/-- Instrumented original that records the `this` receiver it was invoked with. -/
def receiverOriginal : Original (Option JSVal) :=
  fun thisArg _ _ => (some thisArg, .ok .undef)

/-! ## Round-trip lemmas: `decodeURI` inverts `encodeURI` -/

theorem toNat_ofNat_of_valid {n : Nat} (h : n.isValidChar) : (Char.ofNat n).toNat = n := by
  rw [Char.ofNat, dif_pos h]
  rfl

theorem hexVal_hexDigitUpper (n : Nat) (h : n < 16) :
    hexVal (hexDigitUpper n) = some n := by
  interval_cases n <;> decide

theorem readHexByte_hex (b : Nat) (h : b < 256) (rest : List Char) :
    readHexByte (hexDigitUpper (b / 16) :: hexDigitUpper (b % 16) :: rest) =
      some (b, hexDigitUpper (b / 16), hexDigitUpper (b % 16), rest) := by
  have h1 := hexVal_hexDigitUpper (b / 16) (by omega)
  have h2 := hexVal_hexDigitUpper (b % 16) (by omega)
  simp only [readHexByte, h1, h2]
  have hb : 16 * (b / 16) + b % 16 = b := by omega
  rw [hb]

theorem readContBytes_zero (l : List Char) : readContBytes 0 l = some ([], l) := rfl

theorem readContBytes_hex (b : Nat) (hb : 128 ≤ b) (hb2 : b < 192) (n : Nat) (l : List Char) :
    readContBytes (n + 1) ('%' :: hexDigitUpper (b / 16) :: hexDigitUpper (b % 16) :: l) =
      (readContBytes n l).map (fun p => (b :: p.1, p.2)) := by
  simp only [readContBytes, if_pos rfl, readHexByte_hex b (by omega) l,
    if_pos (And.intro hb hb2)]
  cases hr : readContBytes n l with
  | none => simp
  | some p => simp

theorem decodeLoop_chunk1 (b : Nat) (hb : b < 128)
    (hpres : decodePreserve (Char.ofNat b) = false) (f : Nat) (l : List Char) :
    decodeLoop (f + 1) ('%' :: hexDigitUpper (b / 16) :: hexDigitUpper (b % 16) :: l) =
      (decodeLoop f l).map (fun t => Char.ofNat b :: t) := by
  simp only [decodeLoop, if_true]
  rw [readHexByte_hex b (by omega) l]
  dsimp only
  rw [if_pos hb]
  cases hd : decodeLoop f l with
  | none => simp
  | some t => simp [hpres]

theorem decodeLoop_chunk2 (u : Nat) (h1 : 128 ≤ u) (h2 : u < 2048) (f : Nat) (l : List Char) :
    decodeLoop (f + 1)
      ('%' :: hexDigitUpper ((192 + u / 64) / 16) :: hexDigitUpper ((192 + u / 64) % 16) ::
       '%' :: hexDigitUpper ((128 + u % 64) / 16) :: hexDigitUpper ((128 + u % 64) % 16) :: l) =
      (decodeLoop f l).map (fun t => Char.ofNat u :: t) := by
  simp only [decodeLoop, if_true]
  rw [readHexByte_hex (192 + u / 64) (by omega)]
  dsimp only
  rw [if_neg (by omega)]
  have hseq : seqInfo (192 + u / 64) = some (1, 192, 128) := by
    rw [seqInfo, if_neg (by omega), if_pos (by omega)]
  rw [hseq]
  dsimp only
  rw [readContBytes_hex (128 + u % 64) (by omega) (by omega) 0 l, readContBytes_zero]
  dsimp only [Option.map, List.foldl]
  have hval : (192 + u / 64 - 192) * 64 + (128 + u % 64 - 128) = u := by omega
  rw [hval, if_pos (by omega)]
  cases hd : decodeLoop f l with
  | none => simp
  | some t => simp

theorem decodeLoop_chunk3 (u : Nat) (h1 : 2048 ≤ u) (h2 : u < 65536)
    (hsur : u < 55296 ∨ 57343 < u) (f : Nat) (l : List Char) :
    decodeLoop (f + 1)
      ('%' :: hexDigitUpper ((224 + u / 64 / 64) / 16) :: hexDigitUpper ((224 + u / 64 / 64) % 16) ::
       '%' :: hexDigitUpper ((128 + u / 64 % 64) / 16) :: hexDigitUpper ((128 + u / 64 % 64) % 16) ::
       '%' :: hexDigitUpper ((128 + u % 64) / 16) :: hexDigitUpper ((128 + u % 64) % 16) :: l) =
      (decodeLoop f l).map (fun t => Char.ofNat u :: t) := by
  simp only [decodeLoop, if_true]
  rw [readHexByte_hex (224 + u / 64 / 64) (by omega)]
  dsimp only
  rw [if_neg (by omega)]
  have hseq : seqInfo (224 + u / 64 / 64) = some (2, 224, 2048) := by
    rw [seqInfo, if_neg (by omega), if_neg (by omega), if_pos (by omega)]
  rw [hseq]
  dsimp only
  rw [readContBytes_hex (128 + u / 64 % 64) (by omega) (by omega) 1 _,
    readContBytes_hex (128 + u % 64) (by omega) (by omega) 0 l, readContBytes_zero]
  dsimp only [Option.map, List.foldl]
  have hval : ((224 + u / 64 / 64 - 224) * 64 + (128 + u / 64 % 64 - 128)) * 64
      + (128 + u % 64 - 128) = u := by omega
  rw [hval, if_pos (by omega)]
  cases hd : decodeLoop f l with
  | none => simp
  | some t => simp

theorem decodeLoop_chunk4 (u : Nat) (h1 : 65536 ≤ u) (h2 : u < 1114112) (f : Nat) (l : List Char) :
    decodeLoop (f + 1)
      ('%' :: hexDigitUpper ((240 + u / 64 / 64 / 64) / 16) ::
         hexDigitUpper ((240 + u / 64 / 64 / 64) % 16) ::
       '%' :: hexDigitUpper ((128 + u / 64 / 64 % 64) / 16) ::
         hexDigitUpper ((128 + u / 64 / 64 % 64) % 16) ::
       '%' :: hexDigitUpper ((128 + u / 64 % 64) / 16) :: hexDigitUpper ((128 + u / 64 % 64) % 16) ::
       '%' :: hexDigitUpper ((128 + u % 64) / 16) :: hexDigitUpper ((128 + u % 64) % 16) :: l) =
      (decodeLoop f l).map (fun t => Char.ofNat u :: t) := by
  simp only [decodeLoop, if_true]
  rw [readHexByte_hex (240 + u / 64 / 64 / 64) (by omega)]
  dsimp only
  rw [if_neg (by omega)]
  have hseq : seqInfo (240 + u / 64 / 64 / 64) = some (3, 240, 65536) := by
    rw [seqInfo, if_neg (by omega), if_neg (by omega), if_neg (by omega), if_pos (by omega)]
  rw [hseq]
  dsimp only
  rw [readContBytes_hex (128 + u / 64 / 64 % 64) (by omega) (by omega) 2 _,
    readContBytes_hex (128 + u / 64 % 64) (by omega) (by omega) 1 _,
    readContBytes_hex (128 + u % 64) (by omega) (by omega) 0 l, readContBytes_zero]
  dsimp only [Option.map, List.foldl]
  have hval : (((240 + u / 64 / 64 / 64 - 240) * 64 + (128 + u / 64 / 64 % 64 - 128)) * 64
      + (128 + u / 64 % 64 - 128)) * 64 + (128 + u % 64 - 128) = u := by omega
  rw [hval, if_pos (by omega)]
  cases hd : decodeLoop f l with
  | none => simp
  | some t => simp

theorem char_valid_range (c : Char) :
    c.toNat < 55296 ∨ (57343 < c.toNat ∧ c.toNat < 1114112) := c.valid

theorem char_toNat_lt (c : Char) : c.toNat < 1114112 := by
  rcases char_valid_range c with h | h
  · omega
  · exact h.2

theorem decodePreserve_eq_false {c : Char} (h : encodeKeep c = false) :
    decodePreserve c = false := by
  simp only [encodeKeep, Bool.or_eq_false_iff] at h
  simp only [decodePreserve, Bool.or_eq_false_iff]
  exact ⟨h.1.1, h.2⟩

theorem encodeKeep_percent_eq_false : encodeKeep '%' = false := by decide

theorem decodeLoop_encList (v : List Char) :
    ∀ fuel : Nat, (encList v).length ≤ fuel → decodeLoop fuel (encList v) = some v := by
  induction v with
  | nil =>
    intro fuel _
    cases fuel <;> rfl
  | cons c v ih =>
    intro fuel hfuel
    rw [encList] at hfuel ⊢
    cases hk : encodeKeep c with
    | true =>
      have hc : encodeURIChar c = [c] := by rw [encodeURIChar, if_pos hk]
      rw [hc, List.singleton_append] at hfuel ⊢
      simp only [List.length_cons] at hfuel
      obtain ⟨f, rfl⟩ : ∃ f, fuel = f + 1 := ⟨fuel - 1, by omega⟩
      have hne : c ≠ '%' := by
        intro h
        rw [h, encodeKeep_percent_eq_false] at hk
        simp at hk
      simp only [decodeLoop, if_neg hne, ih f (by omega)]
    | false =>
      have hcv := char_valid_range c
      have hlt := char_toNat_lt c
      have hc : encodeURIChar c = percentBytes (utf8Bytes c) := by
        rw [encodeURIChar, if_neg (by simp [hk])]
      rw [hc] at hfuel ⊢
      by_cases h1 : c.toNat < 128
      · have hb : utf8Bytes c = [c.toNat] := by simp [utf8Bytes, h1]
        rw [hb] at hfuel ⊢
        simp only [percentBytes, byteHex, List.cons_append, List.nil_append,
          List.append_nil, List.length_cons] at hfuel ⊢
        obtain ⟨f, rfl⟩ : ∃ f, fuel = f + 1 := ⟨fuel - 1, by omega⟩
        rw [decodeLoop_chunk1 c.toNat h1
          (by rw [Char.ofNat_toNat]; exact decodePreserve_eq_false hk) f (encList v)]
        rw [ih f (by omega)]
        simp [Char.ofNat_toNat]
      · by_cases h2 : c.toNat < 2048
        · have hb : utf8Bytes c = [192 + c.toNat / 64, 128 + c.toNat % 64] := by
            simp [utf8Bytes, h1, h2]
          rw [hb] at hfuel ⊢
          simp only [percentBytes, byteHex, List.cons_append, List.nil_append,
            List.append_nil, List.length_cons] at hfuel ⊢
          obtain ⟨f, rfl⟩ : ∃ f, fuel = f + 1 := ⟨fuel - 1, by omega⟩
          rw [decodeLoop_chunk2 c.toNat (by omega) h2 f (encList v)]
          rw [ih f (by omega)]
          simp [Char.ofNat_toNat]
        · by_cases h3 : c.toNat < 65536
          · have hb : utf8Bytes c =
                [224 + c.toNat / 64 / 64, 128 + c.toNat / 64 % 64, 128 + c.toNat % 64] := by
              simp [utf8Bytes, h1, h2, h3]
            rw [hb] at hfuel ⊢
            simp only [percentBytes, byteHex, List.cons_append, List.nil_append,
              List.append_nil, List.length_cons] at hfuel ⊢
            obtain ⟨f, rfl⟩ : ∃ f, fuel = f + 1 := ⟨fuel - 1, by omega⟩
            rw [decodeLoop_chunk3 c.toNat (by omega) h3 (by omega) f (encList v)]
            rw [ih f (by omega)]
            simp [Char.ofNat_toNat]
          · have hb : utf8Bytes c =
                [240 + c.toNat / 64 / 64 / 64, 128 + c.toNat / 64 / 64 % 64,
                 128 + c.toNat / 64 % 64, 128 + c.toNat % 64] := by
              simp [utf8Bytes, h1, h2, h3]
            rw [hb] at hfuel ⊢
            simp only [percentBytes, byteHex, List.cons_append, List.nil_append,
              List.append_nil, List.length_cons] at hfuel ⊢
            obtain ⟨f, rfl⟩ : ∃ f, fuel = f + 1 := ⟨fuel - 1, by omega⟩
            rw [decodeLoop_chunk4 c.toNat (by omega) (by omega) f (encList v)]
            rw [ih f (by omega)]
            simp [Char.ofNat_toNat]

theorem decodeURI_encodeURI (s : String) : decodeURI (encodeURI s) = some s := by
  show (decodeLoop (String.mk (encList s.data)).data.length
    (String.mk (encList s.data)).data).map String.mk = some s
  rw [decodeLoop_encList s.data _ (Nat.le_refl _)]
  rfl

/-! ## Behaviour of `convertUrl` -/

/-- Workhorse: `convertUrl` computes exactly the spec's
guard → decode → transform → encode → fallback algorithm. -/
theorem convertUrl_eq_specAlgorithm (t2s : String → Option String) (url : JSVal) :
    convertUrl t2s url = convertUrlSpec t2s url := by
  cases url with
  | undef => rfl
  | null => rfl
  | boolean b => simp [convertUrl, convertUrlSpec, jsTruthy, JSVal.isString, Bool.or_true]
  | num n => simp [convertUrl, convertUrlSpec, jsTruthy, JSVal.isString, Bool.or_true]
  | obj id => rfl
  | str s =>
    by_cases hs : s = ""
    · subst hs; rfl
    · have hb : (s == "") = false := by simp [hs]
      simp only [convertUrl, convertUrlSpec, jsTruthy, JSVal.isString, hb,
        Bool.not_false, Bool.not_true, Bool.or_false, Bool.false_or, if_neg hs]
      cases hd : decodeURI s with
      | none => simp [Option.bind]
      | some d =>
        cases ht : t2s d with
        | none => simp [Option.bind, ht]
        | some m => simp [Option.bind, ht]

/-! ## Claims -/

/-- Claim C1: for every input to `convertUrl`, a non-string or empty/absent
input is returned unchanged; otherwise the result equals
`encodeURI (ChineseS2T.t2s (decodeURI input))`, except that if any exception
is raised during decode, transform or encode, the original unmodified input
string is returned — i.e. `convertUrl` coincides with the spec's algorithm
(`convertUrlSpec`) on every input and every transform. -/
theorem claimC1_convertUrl_decode_transform_encode (t2s : String → Option String)
    (url : JSVal) : convertUrl t2s url = convertUrlSpec t2s url :=
  convertUrl_eq_specAlgorithm t2s url

/-- Claim C2 counterexample: `"a%3Fb"` is a valid full URI (`decodeURI`
succeeds on it) on which the transform acts as the identity, yet `convertUrl`
returns `"a%253Fb"` ≠ `"a%3Fb"`: `decodeURI` preserves the `%3F` escape of
the reserved character `?`, and `encodeURI` then re-escapes its `%`. The
decode/encode pair is not an inverse pair on escapes of reserved characters,
so the claim as stated is false. -/
theorem claimC2_counterexample :
    decodeURI "a%3Fb" = some "a%3Fb" ∧
    t2sId "a%3Fb" = some "a%3Fb" ∧
    convertUrl t2sId (.str "a%3Fb") = .str "a%253Fb" ∧
    JSVal.str "a%253Fb" ≠ JSVal.str "a%3Fb" :=
  ⟨rfl, rfl, rfl, by decide⟩

/-- Claim C2 (amended): for every URI string in the image of `encodeURI`
(equivalently, containing no percent-escape of a reserved character) on which
the Traditional→Simplified transform acts as the identity, `convertUrl`
returns the string unchanged: on such strings decode and re-encode do form an
inverse pair over the whole URI. -/
theorem claimC2_roundtrip_identity (t2s : String → Option String) (w : String)
    (hid : t2s w = some w) :
    convertUrl t2s (.str (encodeURI w)) = .str (encodeURI w) := by
  rw [convertUrl_eq_specAlgorithm]
  show convertUrlSpec t2s (.str (encodeURI w)) = .str (encodeURI w)
  unfold convertUrlSpec
  dsimp only
  by_cases he : encodeURI w = ""
  · rw [if_pos he]
  · rw [if_neg he, decodeURI_encodeURI w]
    simp [Option.bind, hid]

/-- Witness for C2 (amended) at the concrete input `encodeURI "ab c" = "ab%20c"`. -/
theorem claimC2_roundtrip_identity_witness :
    convertUrl t2sId (.str (encodeURI "ab c")) = .str (encodeURI "ab c") :=
  claimC2_roundtrip_identity t2sId "ab c" rfl

/-- Claim C3 counterexample: with the transform mapping 繁體字 → 繁体字, the
fetch wrapper does not hand the original implementation the literal string
`"/search?q=繁体字"`: `convertUrl` re-encodes with `encodeURI`, which
percent-escapes the non-ASCII characters. -/
theorem claimC3_counterexample :
    fetchArgs t2sSample [.str "/search?q=繁體字"] ≠ [.str "/search?q=繁体字"] := by
  decide

/-- Claim C3 (amended): the fetch wrapper replaces a string first argument by
`convertUrl` of it and passes a non-string first argument — and all further
arguments, and an empty argument list — through unmodified; the scenario call
`fetch("/search?q=繁體字")` reaches the original as the percent-encoded
`fetch("/search?q=%E7%B9%81%E4%BD%93%E5%AD%97")` (the `encodeURI` form of
`"/search?q=繁体字"`). -/
theorem claimC3_fetch_first_argument :
    (∀ (t2s : String → Option String) (v : JSVal) (rest : List JSVal),
      fetchArgs t2s (v :: rest) = (if v.isString then convertUrl t2s v else v) :: rest) ∧
    (∀ t2s : String → Option String, fetchArgs t2s [] = []) ∧
    fetchArgs t2sSample [.str "/search?q=繁體字"] =
      [.str "/search?q=%E7%B9%81%E4%BD%93%E5%AD%97"] := by
  refine ⟨fun t2s v rest => rfl, fun t2s => rfl, ?_⟩
  decide

/-- Claim C4 counterexample: `history.pushState(null, "", "/頁面")` does not
hand `"/页面"` to the original: the wrapper hands the `encodeURI` form
`"/%E9%A1%B5%E9%9D%A2"`. -/
theorem claimC4_counterexample :
    pushStateArgs t2sSample [.null, .str "", .str "/頁面"] ≠
      [.null, .str "", .str "/页面"] := by
  decide

/-- Claim C4 (amended): the `open` wrapper rewrites exactly the second
positional argument and the `pushState`/`replaceState` wrappers exactly the
third, only when that argument is a string, leaving the other arguments of
the delegated call untouched (the history wrappers forward exactly their
three named parameters); the scenario `history.pushState(null, "", "/頁面")`
hands the percent-encoded `"/%E9%A1%B5%E9%9D%A2"` to the original. -/
theorem claimC4_url_argument_position :
    (∀ (t2s : String → Option String) (method url : JSVal) (rest : List JSVal),
      openArgs t2s (method :: url :: rest) =
        method :: (if url.isString then convertUrl t2s url else url) :: rest) ∧
    (∀ (t2s : String → Option String) (st unused url : JSVal),
      pushStateArgs t2s [st, unused, url] =
        [st, unused, if url.isString then convertUrl t2s url else url]) ∧
    (∀ (t2s : String → Option String) (st unused url : JSVal),
      replaceStateArgs t2s [st, unused, url] =
        [st, unused, if url.isString then convertUrl t2s url else url]) ∧
    pushStateArgs t2sSample [.null, .str "", .str "/頁面"] =
      [.null, .str "", .str "/%E9%A1%B5%E9%9D%A2"] := by
  refine ⟨fun t2s method url rest => rfl, fun t2s st unused url => rfl,
    fun t2s st unused url => rfl, ?_⟩
  decide

/-- Claim C5: every installed wrapper, on every execution path — i.e. for
every receiver, every argument list and every starting state — invokes its
captured original implementation exactly once (the call counter goes from `n`
to `n + 1`), with the (possibly transformed) argument list; no wrapper
returns or throws without delegating. -/
theorem claimC5_delegate_exactly_once (t2s : String → Option String)
    (thisArg : JSVal) (args : List JSVal) (n : Nat) (r : Option (List JSVal)) :
    (fetchWrapper t2s countingOriginal thisArg args (n, r)).1 =
      (n + 1, some (fetchArgs t2s args)) ∧
    (openWrapper t2s countingOriginal thisArg args (n, r)).1 =
      (n + 1, some (openArgs t2s args)) ∧
    (pushStateWrapper t2s countingOriginal thisArg args (n, r)).1 =
      (n + 1, some (pushStateArgs t2s args)) ∧
    (replaceStateWrapper t2s countingOriginal thisArg args (n, r)).1 =
      (n + 1, some (replaceStateArgs t2s args)) :=
  ⟨rfl, rfl, rfl, rfl⟩

/-- Claim C6: every installed wrapper is observationally the original applied
to the transformed argument list — same state, same result, and in particular
the same thrown exception (`Except.error`) whenever the original throws: the
interception layer never changes the success/failure outcome of the wrapped
call. -/
theorem claimC6_result_and_exceptions_transparent (σ : Type)
    (t2s : String → Option String) (orig : Original σ)
    (thisArg : JSVal) (args : List JSVal) (st : σ) :
    fetchWrapper t2s orig thisArg args st = orig thisArg (fetchArgs t2s args) st ∧
    openWrapper t2s orig thisArg args st = orig thisArg (openArgs t2s args) st ∧
    pushStateWrapper t2s orig thisArg args st = orig thisArg (pushStateArgs t2s args) st ∧
    replaceStateWrapper t2s orig thisArg args st = orig thisArg (replaceStateArgs t2s args) st :=
  ⟨rfl, rfl, rfl, rfl⟩

/-- Claim C7 counterexample: `convertUrl` applied to the JavaScript value
`undefined` returns `undefined` (the guard passes non-strings through
unchanged), so the claim "for every input the result is never undefined or
null" is false as stated — it holds only for string inputs. -/
theorem claimC7_counterexample : convertUrl t2sId JSVal.undef = JSVal.undef := rfl

/-- Claim C7 (amended): `convertUrl` is total (never throws past its
boundary); for every string input the result is again a string (never
`undefined`/`null`); and for every input whatsoever the result is either the
original input unchanged or a successfully rewritten URL string
`encodeURI m` obtained from a successful decode and transform. -/
theorem claimC7_result_shape (t2s : String → Option String) :
    (∀ s : String, (convertUrl t2s (.str s)).isString = true) ∧
    (∀ url : JSVal, convertUrl t2s url = url ∨
      ∃ s d m, url = .str s ∧ decodeURI s = some d ∧ t2s d = some m ∧
        convertUrl t2s url = .str (encodeURI m)) := by
  constructor
  · intro s
    rw [convertUrl_eq_specAlgorithm]
    show (convertUrlSpec t2s (.str s)).isString = true
    unfold convertUrlSpec
    dsimp only
    by_cases hs : s = ""
    · rw [if_pos hs]; rfl
    · rw [if_neg hs]
      cases hbind : (decodeURI s).bind t2s <;> rfl
  · intro url
    cases url with
    | str s =>
      rw [convertUrl_eq_specAlgorithm]
      show _ ∨ _
      by_cases hs : s = ""
      · left
        show convertUrlSpec t2s (.str s) = .str s
        unfold convertUrlSpec
        dsimp only
        rw [if_pos hs]
      · cases hd : decodeURI s with
        | none =>
          left
          show convertUrlSpec t2s (.str s) = .str s
          unfold convertUrlSpec
          dsimp only
          rw [if_neg hs, hd]
          rfl
        | some d =>
          cases ht : t2s d with
          | none =>
            left
            show convertUrlSpec t2s (.str s) = .str s
            unfold convertUrlSpec
            dsimp only
            rw [if_neg hs, hd]
            simp [Option.bind, ht]
          | some m =>
            right
            refine ⟨s, d, m, rfl, hd, ht, ?_⟩
            show convertUrlSpec t2s (.str s) = .str (encodeURI m)
            unfold convertUrlSpec
            dsimp only
            rw [if_neg hs, hd]
            simp [Option.bind, ht]
    | undef => left; rfl
    | null => left; rfl
    | boolean b => left; simp [convertUrl, jsTruthy, JSVal.isString, Bool.or_true]
    | num n => left; simp [convertUrl, jsTruthy, JSVal.isString, Bool.or_true]
    | obj id => left; rfl

/-- Claim C8: running the installer's success path twice (double
installation, simulated) does not change the external behaviour criterion:
one external call to any of the four dispatch points still causes the
originally captured (pristine, counting) implementation to be invoked exactly
once — the counter goes from `n` to `n + 1`, not once per patch layer. -/
theorem claimC8_double_install_single_invocation (t2s : String → Option String)
    (thisArg : JSVal) (args : List JSVal) (n : Nat) (r : Option (List JSVal)) :
    ((installS2T t2s (installS2T t2s countingGlobals)).fetch thisArg args (n, r)).1.1 = n + 1 ∧
    ((installS2T t2s (installS2T t2s countingGlobals)).xhrOpen thisArg args (n, r)).1.1 = n + 1 ∧
    ((installS2T t2s (installS2T t2s countingGlobals)).pushState thisArg args (n, r)).1.1 = n + 1 ∧
    ((installS2T t2s (installS2T t2s countingGlobals)).replaceState thisArg args (n, r)).1.1 = n + 1 :=
  ⟨rfl, rfl, rfl, rfl⟩

/-- Claim C9: if `ChineseS2T` never becomes defined, the gate reschedules
itself every 100 ms indefinitely (the k-th run happens at time `100 * k`) and
the four globals are never replaced (the state keeps the pristine `g` and
`installed = false`); conversely, as soon as a scheduled run observes the
symbol defined, all four wrappers are installed in that same synchronous pass
and no further poll is scheduled. -/
theorem claimC9_gate_polls_until_ready (σ : Type) (lib : Nat → Bool)
    (t2s : String → Option String) (g : Globals σ) :
    ((∀ t, lib t = false) → ∀ k, gateRun lib t2s g k =
      { globals := g, installed := false, nextPoll := some (100 * k) }) ∧
    (∀ (st : GateState σ) (t : Nat), st.nextPoll = some t → lib t = true →
      gateStep lib t2s st =
        { globals := installS2T t2s st.globals, installed := true, nextPoll := none }) := by
  constructor
  · intro hlib k
    induction k with
    | zero => rfl
    | succ k ihk =>
      show gateStep lib t2s (gateRun lib t2s g k) = _
      rw [ihk]
      simp only [gateStep, hlib (100 * k), Bool.false_eq_true, if_false]
      have : 100 * k + 100 = 100 * (k + 1) := by omega
      rw [this]
  · intro st t h1 h2
    simp [gateStep, h1, h2]

/-- Witness for C9: with the library never defined, after two scheduled
runs the globals are still pristine and the next poll is at 200 ms; with the
library defined, one step from page load installs everything and stops
polling. -/
theorem claimC9_gate_polls_until_ready_witness :
    gateRun (fun _ => false) t2sId countingGlobals 2 =
      { globals := countingGlobals, installed := false, nextPoll := some 200 } ∧
    gateStep (fun _ => true) t2sId (gateInit countingGlobals) =
      { globals := installS2T t2sId countingGlobals, installed := true, nextPoll := none } := by
  constructor
  · have h := (claimC9_gate_polls_until_ready _ (fun _ => false) t2sId countingGlobals).1
      (fun _ => rfl) 2
    simpa using h
  · exact (claimC9_gate_polls_until_ready _ (fun _ => true) t2sId countingGlobals).2
      (gateInit countingGlobals) 0 rfl rfl

/-- Claim C10: every installed wrapper invokes its captured original with the
same `this` receiver the wrapper itself was invoked with (`apply(this, args)`
/ `call(this, …)`): an original that records its receiver always records
exactly the wrapper's receiver. -/
theorem claimC10_this_receiver_preserved (t2s : String → Option String)
    (thisArg : JSVal) (args : List JSVal) (r : Option JSVal) :
    (fetchWrapper t2s receiverOriginal thisArg args r).1 = some thisArg ∧
    (openWrapper t2s receiverOriginal thisArg args r).1 = some thisArg ∧
    (pushStateWrapper t2s receiverOriginal thisArg args r).1 = some thisArg ∧
    (replaceStateWrapper t2s receiverOriginal thisArg args r).1 = some thisArg :=
  ⟨rfl, rfl, rfl, rfl⟩

end KVideo
